import Mathlib

set_option autoImplicit false

/-! Shallow embedding of the Step Synchronization and Time-Stretched Rendering
Engine (autodoc). Python floats are modelled as `ℚ`; fallible paths return
`Option` or `Except`. Sources: `app/services/step_detector.py`,
`app/services/aligner.py`, `app/services/video_processor.py`. The Python field
`end` is renamed `endTime` (`end` is a Lean keyword). -/

/-- Dataclass `SpeechSegment` from `step_detector.py` (fields: start, end, text). -/
structure SpeechSegment where
  start : ℚ
  endTime : ℚ
  text : String
  deriving DecidableEq

/-- Dataclass `ClickEvent` from `step_detector.py`. -/
structure ClickEvent where
  timestamp : ℚ
  x : ℤ
  y : ℤ
  element : Option String
  deriving DecidableEq

/-- Dataclass `StepCandidate` from `step_detector.py`. -/
structure StepCandidate where
  click : ClickEvent
  speech : Option SpeechSegment
  raw_speech_text : String
  deriving DecidableEq

/-- Constant `StepDetector.MAX_SPEECH_SECONDS`. -/
def MAX_SPEECH_SECONDS : ℚ := 5.0

/-- A speech segment survives the two `continue` filters of
`StepDetector._find_nearest_speech_before`: it ends at or before the click
and not more than `MAX_SPEECH_SECONDS` before it. -/
def speechQualifies (click_timestamp : ℚ) (segment : SpeechSegment) : Prop :=
  segment.endTime ≤ click_timestamp ∧
    click_timestamp - MAX_SPEECH_SECONDS ≤ segment.endTime

instance (ts : ℚ) (s : SpeechSegment) : Decidable (speechQualifies ts s) :=
  inferInstanceAs (Decidable (_ ∧ _))

/-- One iteration of the loop body of `_find_nearest_speech_before`. The
accumulator carries `(best_candidate, best_distance)`; `none` stands for the
initial state `best_candidate = None, best_distance = inf`. -/
def findNearestStep (click_timestamp : ℚ) (acc : Option (SpeechSegment × ℚ))
    (segment : SpeechSegment) : Option (SpeechSegment × ℚ) :=
  if speechQualifies click_timestamp segment then
    let distance := click_timestamp - segment.endTime
    match acc with
    | none => some (segment, distance)
    | some (best, best_distance) =>
        if distance < best_distance then some (segment, distance)
        else some (best, best_distance)
  else acc

/-- Method `StepDetector._find_nearest_speech_before`. -/
def findNearestSpeechBefore (click_timestamp : ℚ)
    (speech_segments : List SpeechSegment) : Option SpeechSegment :=
  (speech_segments.foldl (findNearestStep click_timestamp) none).map Prod.fst

/-- Method `StepDetector._extract_raw_text`. -/
def extractRawText : Option SpeechSegment → String
  | none => ""
  | some s => s.text

/-- Method `StepDetector.detect_steps`. -/
def detectSteps (clicks : List ClickEvent)
    (speech_segments : List SpeechSegment) : List StepCandidate :=
  clicks.map fun click =>
    let nearest := findNearestSpeechBefore click.timestamp speech_segments
    { click := click, speech := nearest, raw_speech_text := extractRawText nearest }

/-- Method `StepDetector.filter_clicks_by_speech` (`max_gap_seconds` defaults
to 3.0 in the source and is passed explicitly here). -/
def filterClicksBySpeech (clicks : List ClickEvent)
    (speech_segments : List SpeechSegment) (max_gap_seconds : ℚ) :
    List ClickEvent :=
  clicks.filter fun click =>
    match findNearestSpeechBefore click.timestamp speech_segments with
    | some nearest => decide (click.timestamp - nearest.endTime ≤ max_gap_seconds)
    | none => false

/-! Fold invariants for `_find_nearest_speech_before`. -/

theorem findNearestStep_not_q {ts : ℚ} {s : SpeechSegment}
    (h : ¬ speechQualifies ts s) (acc : Option (SpeechSegment × ℚ)) :
    findNearestStep ts acc s = acc := by
  unfold findNearestStep; rw [if_neg h]

theorem findNearestStep_q_none {ts : ℚ} {s : SpeechSegment}
    (h : speechQualifies ts s) :
    findNearestStep ts none s = some (s, ts - s.endTime) := by
  simp [findNearestStep, h]

theorem findNearestStep_q_some_lt {ts : ℚ} {s b1 : SpeechSegment} {d1 : ℚ}
    (h : speechQualifies ts s) (hlt : ts - s.endTime < d1) :
    findNearestStep ts (some (b1, d1)) s = some (s, ts - s.endTime) := by
  simp [findNearestStep, h, hlt]

theorem findNearestStep_q_some_ge {ts : ℚ} {s b1 : SpeechSegment} {d1 : ℚ}
    (h : speechQualifies ts s) (hlt : ¬ ts - s.endTime < d1) :
    findNearestStep ts (some (b1, d1)) s = some (b1, d1) := by
  simp [findNearestStep, h, hlt]

theorem foldNearest_shape (ts : ℚ) :
    ∀ (segs : List SpeechSegment) (acc : Option (SpeechSegment × ℚ))
      (pool : List SpeechSegment),
      (∀ b d, acc = some (b, d) →
        speechQualifies ts b ∧ d = ts - b.endTime ∧ b ∈ pool) →
      (∀ s, s ∈ segs → s ∈ pool) →
      ∀ b d, segs.foldl (findNearestStep ts) acc = some (b, d) →
        speechQualifies ts b ∧ d = ts - b.endTime ∧ b ∈ pool := by
  intro segs
  induction segs with
  | nil =>
      intro acc pool hacc _ b d h
      rw [List.foldl_nil] at h
      exact hacc b d h
  | cons s rest ih =>
      intro acc pool hacc hsub b d h
      rw [List.foldl_cons] at h
      refine ih (findNearestStep ts acc s) pool ?_ ?_ b d h
      · intro b0 d0 hb
        by_cases hq : speechQualifies ts s
        · cases acc with
          | none =>
              rw [findNearestStep_q_none hq] at hb
              simp only [Option.some.injEq, Prod.mk.injEq] at hb
              refine ⟨?_, ?_, ?_⟩
              · rw [← hb.1]; exact hq
              · rw [← hb.1, ← hb.2]
              · rw [← hb.1]; exact hsub s (List.mem_cons_self s rest)
          | some p =>
              obtain ⟨b1, d1⟩ := p
              by_cases hlt : ts - s.endTime < d1
              · rw [findNearestStep_q_some_lt hq hlt] at hb
                simp only [Option.some.injEq, Prod.mk.injEq] at hb
                refine ⟨?_, ?_, ?_⟩
                · rw [← hb.1]; exact hq
                · rw [← hb.1, ← hb.2]
                · rw [← hb.1]; exact hsub s (List.mem_cons_self s rest)
              · rw [findNearestStep_q_some_ge hq hlt] at hb
                simp only [Option.some.injEq, Prod.mk.injEq] at hb
                have hold := hacc b1 d1 rfl
                rw [← hb.1, ← hb.2]
                exact hold
        · rw [findNearestStep_not_q hq] at hb
          exact hacc b0 d0 hb
      · intro s2 hs2
        exact hsub s2 (List.mem_cons_of_mem s hs2)

theorem foldNearest_min (ts : ℚ) :
    ∀ (segs : List SpeechSegment) (acc : Option (SpeechSegment × ℚ))
      (best : SpeechSegment) (d : ℚ),
      segs.foldl (findNearestStep ts) acc = some (best, d) →
      (∀ s, s ∈ segs → speechQualifies ts s → d ≤ ts - s.endTime) ∧
      (∀ b0 d0, acc = some (b0, d0) → d ≤ d0) := by
  intro segs
  induction segs with
  | nil =>
      intro acc best d h
      rw [List.foldl_nil] at h
      constructor
      · intro s hs; cases hs
      · intro b0 d0 hb
        rw [hb] at h
        simp only [Option.some.injEq, Prod.mk.injEq] at h
        rw [h.2]
  | cons s rest ih =>
      intro acc best d h
      rw [List.foldl_cons] at h
      obtain ⟨ih1, ih2⟩ := ih (findNearestStep ts acc s) best d h
      constructor
      · intro s2 hs2 hq2
        rcases List.mem_cons.mp hs2 with heq | hmem
        · rw [heq] at hq2 ⊢
          cases hacc : acc with
          | none =>
              rw [hacc] at ih2
              exact ih2 s (ts - s.endTime) (findNearestStep_q_none hq2)
          | some p =>
              obtain ⟨b1, d1⟩ := p
              rw [hacc] at ih2
              by_cases hlt : ts - s.endTime < d1
              · exact ih2 s (ts - s.endTime) (findNearestStep_q_some_lt hq2 hlt)
              · exact le_trans (ih2 b1 d1 (findNearestStep_q_some_ge hq2 hlt))
                  (le_of_not_lt hlt)
        · exact ih1 s2 hmem hq2
      · intro b0 d0 hb
        rw [hb] at ih2
        by_cases hq : speechQualifies ts s
        · by_cases hlt : ts - s.endTime < d0
          · exact le_trans (ih2 s (ts - s.endTime) (findNearestStep_q_some_lt hq hlt))
              (le_of_lt hlt)
          · exact ih2 b0 d0 (findNearestStep_q_some_ge hq hlt)
        · exact ih2 b0 d0 (findNearestStep_not_q hq _)

theorem foldNearest_none (ts : ℚ) :
    ∀ (segs : List SpeechSegment) (acc : Option (SpeechSegment × ℚ)),
      segs.foldl (findNearestStep ts) acc = none →
      acc = none ∧ ∀ s, s ∈ segs → ¬ speechQualifies ts s := by
  intro segs
  induction segs with
  | nil =>
      intro acc h
      rw [List.foldl_nil] at h
      exact ⟨h, fun s hs => absurd hs (List.not_mem_nil s)⟩
  | cons s rest ih =>
      intro acc h
      rw [List.foldl_cons] at h
      obtain ⟨hacc, hrest⟩ := ih _ h
      by_cases hq : speechQualifies ts s
      · exfalso
        cases hc : acc with
        | none =>
            rw [hc, findNearestStep_q_none hq] at hacc
            cases hacc
        | some p =>
            obtain ⟨b1, d1⟩ := p
            by_cases hlt : ts - s.endTime < d1
            · rw [hc, findNearestStep_q_some_lt hq hlt] at hacc; cases hacc
            · rw [hc, findNearestStep_q_some_ge hq hlt] at hacc; cases hacc
      · rw [findNearestStep_not_q hq] at hacc
        refine ⟨hacc, ?_⟩
        intro s2 hs2
        rcases List.mem_cons.mp hs2 with heq | hmem
        · rw [heq]; exact hq
        · exact hrest s2 hmem

/-- C7: detect_steps returns exactly one StepCandidate per input click, in
click order; whenever a candidate carries a speech segment, that segment is
drawn from the input list, ends at or before the click, within the 5.0s
lookback, and is the qualifying segment whose end is closest to the click;
when no segment qualifies the candidate has no speech and empty raw text. -/
theorem detect_steps_one_candidate_per_click
    (clicks : List ClickEvent) (segs : List SpeechSegment) :
    ((detectSteps clicks segs).map StepCandidate.click = clicks) ∧
    (∀ cand, cand ∈ detectSteps clicks segs →
      (∀ s, cand.speech = some s →
        s ∈ segs ∧ 0 ≤ cand.click.timestamp - s.endTime ∧
        cand.click.timestamp - s.endTime ≤ MAX_SPEECH_SECONDS ∧
        (∀ s2, s2 ∈ segs → speechQualifies cand.click.timestamp s2 →
          cand.click.timestamp - s.endTime ≤ cand.click.timestamp - s2.endTime)) ∧
      (cand.speech = none →
        (∀ s2, s2 ∈ segs → ¬ speechQualifies cand.click.timestamp s2) ∧
        cand.raw_speech_text = "")) := by
  constructor
  · simp only [detectSteps, List.map_map]
    exact List.map_id clicks
  · intro cand hcand
    simp only [detectSteps, List.mem_map] at hcand
    obtain ⟨c, hcmem, rfl⟩ := hcand
    dsimp only
    constructor
    · intro s hs
      rw [findNearestSpeechBefore] at hs
      obtain ⟨⟨b, d⟩, hfold, hfst⟩ := Option.map_eq_some'.mp hs
      have hb : b = s := hfst
      subst hb
      obtain ⟨hqual, hd, hmem⟩ :=
        foldNearest_shape c.timestamp segs none segs
          (fun b0 d0 h0 => absurd h0 (Option.noConfusion))
          (fun s2 h2 => h2) b d hfold
      obtain ⟨hmin, _⟩ := foldNearest_min c.timestamp segs none b d hfold
      refine ⟨hmem, ?_, ?_, ?_⟩
      · exact sub_nonneg.mpr hqual.1
      · have h5 := hqual.2
        unfold MAX_SPEECH_SECONDS at h5 ⊢
        linarith
      · intro s2 hs2 hq2
        rw [hd] at hmin
        exact hmin s2 hs2 hq2
    · intro hnone
      have hfold : segs.foldl (findNearestStep c.timestamp) none = none := by
        rw [findNearestSpeechBefore] at hnone
        exact Option.map_eq_none'.mp hnone
      obtain ⟨_, hno⟩ := foldNearest_none c.timestamp segs none hfold
      refine ⟨hno, ?_⟩
      rw [hnone]
      rfl

/-- Witness for C7: one click at t = 10 with two speech segments; the chosen
segment ends at t = 8, inside the [0, 5.0] lookback window. -/
theorem detect_steps_one_candidate_per_click_witness :
    0 ≤ (10 : ℚ) - 8 ∧ (10 : ℚ) - 8 ≤ MAX_SPEECH_SECONDS := by
  have h := detect_steps_one_candidate_per_click
    [⟨10, 0, 0, none⟩] [⟨3, 8, "открой меню"⟩, ⟨1, 2, "пример"⟩]
  have h2 := (h.2 ⟨⟨10, 0, 0, none⟩, some ⟨3, 8, "открой меню"⟩, "открой меню"⟩
    (by norm_num [detectSteps, findNearestSpeechBefore, findNearestStep,
      speechQualifies, MAX_SPEECH_SECONDS, extractRawText])).1
    ⟨3, 8, "открой меню"⟩ rfl
  exact ⟨h2.2.1, h2.2.2.1⟩

/-- C9: filter_clicks_by_speech with max_gap_seconds = 3.0 keeps a click
exactly when its nearest qualifying preceding speech segment exists and ends
at most 3.0s before the click; in particular a click whose nearest qualifying
speech ends 4.0s earlier is dropped. -/
theorem filter_clicks_by_speech_keeps_iff :
    (∀ (clicks : List ClickEvent) (segs : List SpeechSegment) (c : ClickEvent),
      c ∈ filterClicksBySpeech clicks segs 3.0 ↔
        c ∈ clicks ∧ ∃ nearest,
          findNearestSpeechBefore c.timestamp segs = some nearest ∧
          c.timestamp - nearest.endTime ≤ 3.0) ∧
    filterClicksBySpeech [⟨10, 0, 0, none⟩] [⟨4, 6, "пример"⟩] 3.0 = [] := by
  constructor
  · intro clicks segs c
    simp only [filterClicksBySpeech, List.mem_filter]
    constructor
    · rintro ⟨hc, hp⟩
      refine ⟨hc, ?_⟩
      cases hfind : findNearestSpeechBefore c.timestamp segs with
      | none => rw [hfind] at hp; exact Bool.noConfusion hp
      | some nearest =>
          rw [hfind] at hp
          exact ⟨nearest, rfl, of_decide_eq_true hp⟩
    · rintro ⟨hc, nearest, hfind, hle⟩
      refine ⟨hc, ?_⟩
      rw [hfind]
      exact decide_eq_true hle
  · norm_num [filterClicksBySpeech, findNearestSpeechBefore, findNearestStep,
      speechQualifies, MAX_SPEECH_SECONDS, List.filter]

/-! Embedding of the time-stretch cascade of `video_processor.py`
(`apply_time_stretch` and `_apply_single_stretch`). The source's float
literals 0.5 and 2.0 are written as the exact rationals `1/2` and `2`. -/

/-- Dividing a rational greater than two by two strictly decreases its
ceiling; used for the termination of the two atempo while-loops. -/
theorem ceil_half_lt {x : ℚ} (h : 2 < x) : (⌈x / 2⌉).toNat < (⌈x⌉).toNat := by
  have h1 : x / 2 ≤ x - 1 := by linarith
  have h2 : (⌈x / 2⌉ : ℤ) ≤ ⌈x - 1⌉ := Int.ceil_le_ceil h1
  have h3 : (⌈x - 1⌉ : ℤ) = ⌈x⌉ - 1 := Int.ceil_sub_one x
  have h5 : (0 : ℤ) < ⌈x⌉ := Int.ceil_pos.mpr (by linarith)
  omega

/-- Loop `while current > 2.0` of `_apply_single_stretch` (speed-up branch):
returns the appended `atempo=2.0` stages together with the final residual
value of `current`. -/
def fastLoop (current : ℚ) : List ℚ × ℚ :=
  if h : 2 < current then
    let r := fastLoop (current / 2)
    (2 :: r.1, r.2)
  else ([], current)
termination_by (⌈current⌉).toNat
decreasing_by
  exact ceil_half_lt h

/-- Loop `while current < 0.5` of `_apply_single_stretch` (slow-down branch):
the source appends an `atempo=0.5` stage and divides `current` by 0.5 each
iteration, and never appends the residual. For `current ≤ 0` the Python loop
would not terminate, hence the positivity guard; every claim concerns
positive speed factors, where this equation matches the source. -/
def slowLoop (current : ℚ) : List ℚ :=
  if h : 0 < current ∧ current < 1 / 2 then
    (1 / 2 : ℚ) :: slowLoop (current / (1 / 2))
  else []
termination_by (⌈1 / current⌉).toNat
decreasing_by
  have hc : 0 < current := h.1
  have hx : 2 < 1 / current := by
    rw [lt_div_iff hc]
    nlinarith [h.2]
  have heq : 1 / (current / (1 / 2)) = 1 / current / 2 := by
    field_simp
  rw [heq]
  exact ceil_half_lt hx

/-- `_apply_single_stretch`: the list of atempo stage factors it builds for a
given speed factor (everything after the list construction is the external
ffmpeg invocation). -/
def atempoValues (speed_factor : ℚ) : List ℚ :=
  if 1 / 2 ≤ speed_factor ∧ speed_factor ≤ 2 then [speed_factor]
  else if speed_factor < 1 / 2 then slowLoop speed_factor
  else
    let r := fastLoop speed_factor
    r.1 ++ (if 1 / 2 < r.2 then [r.2] else [])

/-- Result of one `apply_time_stretch` invocation: failure, or the cascaded
stage factors applied across all levels. -/
inductive StretchOutcome where
  | failed
  | stages (stage_factors : List ℚ)
  deriving DecidableEq

/-- `apply_time_stretch`, idealized over the external transcoder: every
ffmpeg stage succeeds and the intermediate written by the 2.0 stage has
exactly half the duration that `get_video_info` reported. `fuel` bounds the
recursion depth (Python's recursion limit); `none` means the recursion did
not complete within `fuel` levels. The `speed_factor ≤ 2.0` case delegates
to `_apply_single_stretch`, contributing its `atempoValues`. -/
def applyTimeStretch : Nat → ℚ → ℚ → Option StretchOutcome
  | 0, _, _ => none
  | fuel + 1, original_duration, target_duration =>
    if original_duration ≤ 0 then some .failed
    else if 2 < original_duration / target_duration then
      match applyTimeStretch fuel (original_duration / 2) (target_duration / 2) with
      | none => none
      | some .failed => some .failed
      | some (.stages l) => some (.stages (atempoValues 2 ++ l))
    else some (.stages (atempoValues (original_duration / target_duration)))

theorem applyTimeStretch_gt_two_none :
    ∀ (fuel : Nat) (original target : ℚ), 0 < target → 2 * target < original →
      applyTimeStretch fuel original target = none := by
  intro fuel
  induction fuel with
  | zero => intro o t _ _; rfl
  | succ n ih =>
      intro o t ht hlt
      have ho : ¬ o ≤ 0 := by linarith
      have hsp : (2 : ℚ) < o / t := by
        rw [lt_div_iff ht]
        linarith
      have hrec : applyTimeStretch n (o / 2) (t / 2) = none := by
        apply ih
        · positivity
        · have h1 : 2 * (t / 2) = t := by ring
          rw [h1, lt_div_iff (by norm_num : (0:ℚ) < 2)]
          linarith
      simp only [applyTimeStretch]
      rw [if_neg ho, if_pos hsp, hrec]

/-- C2 (code refutation): for speed factor 0.25 the slow-down branch of
`_apply_single_stretch` emits a single 0.5 stage and drops the residual, so
the built stage factors multiply to 0.5 and not to the requested 0.25. -/
theorem atempo_slowdown_drops_residual :
    atempoValues (1/4) = [1/2] ∧ (atempoValues (1/4)).prod = 1/2 ∧
      ((1 : ℚ)/2) ≠ 1/4 := by
  have hs2 : slowLoop (1/2 : ℚ) = [] := by
    rw [slowLoop]
    norm_num
  have hs4 : slowLoop (1/4 : ℚ) = [1/2] := by
    rw [slowLoop]
    norm_num [hs2]
  have hav : atempoValues (1/4 : ℚ) = [1/2] := by
    rw [atempoValues]
    norm_num [hs4]
  refine ⟨hav, ?_, by norm_num⟩
  rw [hav]
  norm_num

/-- C1 (code refutation): a whole-clip stretch by factor 3.0 (30s down to
10s) never reaches its target: the recursion passes `target_duration / 2.0`
along with the halved intermediate, so the residual speed factor stays 3.0
at every level and no recursion depth suffices (the claimed bounded cascade
2.0 then 1.5 never happens). -/
theorem apply_time_stretch_factor3_unbounded :
    ∀ fuel : Nat, applyTimeStretch fuel 30 10 = none := fun fuel =>
  applyTimeStretch_gt_two_none fuel 30 10 (by norm_num) (by norm_num)

/-! Embedding of the zoom-segment renderer (`_extract_and_zoom_segment`)
of `video_processor.py`. Python `//` is modelled by `Int.fdiv` and `int()`
truncation by `pyInt`. -/

/-- Dataclass `ZoomRegion`; `mkZoomRegion` performs `__post_init__`
(derived center, target size defaulting). -/
structure ZoomRegion where
  x : ℤ
  y : ℤ
  width : ℤ
  height : ℤ
  target_width : ℤ
  target_height : ℤ
  center_x : ℤ
  center_y : ℤ
  deriving DecidableEq

/-- Constructor applying `ZoomRegion.__post_init__`. -/
def mkZoomRegion (x y width height target_width target_height : ℤ) : ZoomRegion :=
  { x := x, y := y, width := width, height := height,
    target_width := if target_width = 0 then width else target_width,
    target_height := if target_height = 0 then height else target_height,
    center_x := x + Int.fdiv width 2,
    center_y := y + Int.fdiv height 2 }

/-- Dataclass `StepSegment` from `video_processor.py`. Note that it declares
no `zoom_level` field. -/
structure StepSegment where
  start_time : ℚ
  end_time : ℚ
  original_start : ℚ
  original_end : ℚ
  text : String
  audio_path : Option String
  zoom_region : Option ZoomRegion
  action_type : Option String
  audio_duration : Option ℚ
  deriving DecidableEq

/-- Property `StepSegment.duration`. -/
def StepSegment.duration (s : StepSegment) : ℚ := s.end_time - s.start_time

/-- Property `StepSegment.original_duration`. -/
def StepSegment.originalDuration (s : StepSegment) : ℚ :=
  s.original_end - s.original_start

/-- Python attribute lookup `step.zoom_level`: the `StepSegment` dataclass
defines no such field, so the lookup raises `AttributeError`. -/
def StepSegment.zoomLevelAttr (_ : StepSegment) : Except String ℚ :=
  .error "AttributeError: zoom_level"

/-- Truncating conversion `int(q)` of Python (rounds toward zero). -/
def pyInt (q : ℚ) : ℤ := if 0 ≤ q then ⌊q⌋ else ⌈q⌉

/-- Crop window computed for the zoompan filter. -/
structure ZoomCropParams where
  new_width : ℤ
  new_height : ℤ
  new_x : ℤ
  new_y : ℤ
  deriving DecidableEq

/-- Parameters `_extract_and_zoom_segment` feeds into its ffmpeg command. -/
structure ExtractParams where
  crop : Option ZoomCropParams
  speed_factor : ℚ
  deriving DecidableEq

/-- `_extract_and_zoom_segment` up to the construction of the ffmpeg
command: the zoom factor is read first (`step.zoom_level if step.zoom_region
else 1.0`, raising whenever a zoom region is present), then the crop window
and the clamped speed factor are computed. -/
def extractAndZoomSegment (step : StepSegment)
    (original_width original_height : ℤ) : Except String ExtractParams := do
  let zoom_factor ← if step.zoom_region.isSome then step.zoomLevelAttr else pure 1
  let crop :=
    match step.zoom_region with
    | some zr =>
        if 1 < zoom_factor then
          let new_width := pyInt ((original_width : ℚ) / zoom_factor)
          let new_height := pyInt ((original_height : ℚ) / zoom_factor)
          some { new_width := new_width, new_height := new_height,
                 new_x := max 0 (min (zr.center_x - Int.fdiv new_width 2)
                   (original_width - new_width)),
                 new_y := max 0 (min (zr.center_y - Int.fdiv new_height 2)
                   (original_height - new_height)) }
        else none
    | none => none
  let raw_speed :=
    if 0 < step.originalDuration then step.originalDuration / step.duration
    else 1
  pure { crop := crop, speed_factor := max (1/2) (min 2 raw_speed) }

/-- C3 (code refutation): whenever a step carries a `ZoomRegion`, the
renderer raises `AttributeError` reading the nonexistent `step.zoom_level`
before computing any crop window or issuing the transcoding call. -/
theorem extract_and_zoom_attribute_error (step : StepSegment)
    (w h : ℤ) (hz : step.zoom_region.isSome) :
    extractAndZoomSegment step w h = .error "AttributeError: zoom_level" := by
  unfold extractAndZoomSegment
  rw [if_pos hz]
  rfl

/-- Witness for C3: a concrete step with a zoom region fails immediately. -/
theorem extract_and_zoom_attribute_error_witness :
    extractAndZoomSegment
      ⟨0, 5, 0, 5, "шаг", none, some (mkZoomRegion 100 200 300 100 600 200),
        none, none⟩ 1920 1080 = .error "AttributeError: zoom_level" :=
  extract_and_zoom_attribute_error _ 1920 1080 rfl

/-! Embedding of the concatenation fallback (`_concatenate_segments` and
`_reencode_concat`) of `video_processor.py`. The two external ffmpeg runs
are modelled by their observable outcomes. -/

/-- Outcome of one `subprocess.run` transcoding invocation. -/
inductive RunOutcome where
  | ok
  | exitNonzero
  | timeoutExpired
  deriving DecidableEq

/-- Environment: outcomes of the stream-copy pass and the re-encode pass,
and whether each pass left an output file behind. -/
structure ConcatEnv where
  stream_copy_outcome : RunOutcome
  stream_copy_output_exists : Bool
  reencode_outcome : RunOutcome
  reencode_output_exists : Bool
  deriving DecidableEq

/-- `_reencode_concat`: true iff the re-encode run exits zero and the output
file exists; a timeout returns False. -/
def reencodeConcat (env : ConcatEnv) : Bool :=
  match env.reencode_outcome with
  | .ok => env.reencode_output_exists
  | .exitNonzero => false
  | .timeoutExpired => false

/-- `_concatenate_segments`: stream-copy first; on a non-zero exit code fall
back to `_reencode_concat`; on success return whether the output exists; a
timeout returns False directly. -/
def concatenateSegments (env : ConcatEnv) : Bool :=
  match env.stream_copy_outcome with
  | .ok => env.stream_copy_output_exists
  | .exitNonzero => reencodeConcat env
  | .timeoutExpired => false

/-- The stream-copy pass succeeded: zero exit and output present. -/
def streamCopySucceeds (env : ConcatEnv) : Prop :=
  env.stream_copy_outcome = RunOutcome.ok ∧ env.stream_copy_output_exists = true

instance (env : ConcatEnv) : Decidable (streamCopySucceeds env) :=
  inferInstanceAs (Decidable (_ ∧ _))

/-- C6 (counterexample): when the stream-copy pass fails by timing out, the
re-encode retry is skipped even though it would succeed, and the result is
an immediate fatal failure — so failure of stream-copy does not imply a
retry whose failure is the only fatal path. -/
theorem concat_timeout_skips_retry_counterexample :
    ¬ streamCopySucceeds ⟨RunOutcome.timeoutExpired, false, RunOutcome.ok, true⟩ ∧
    reencodeConcat ⟨RunOutcome.timeoutExpired, false, RunOutcome.ok, true⟩ = true ∧
    concatenateSegments ⟨RunOutcome.timeoutExpired, false, RunOutcome.ok, true⟩ = false := by
  refine ⟨?_, rfl, rfl⟩
  intro hcontra
  exact RunOutcome.noConfusion hcontra.1

/-- C6 (amended): the re-encode retry happens exactly when the stream-copy
invocation exits non-zero, and only a failing retry is then fatal; a
stream-copy timeout is immediately fatal without retry; a zero exit returns
whether the output file exists. -/
theorem concatenate_segments_characterization (env : ConcatEnv) :
    (env.stream_copy_outcome = RunOutcome.exitNonzero →
      concatenateSegments env = reencodeConcat env) ∧
    (env.stream_copy_outcome = RunOutcome.timeoutExpired →
      concatenateSegments env = false) ∧
    (env.stream_copy_outcome = RunOutcome.ok →
      concatenateSegments env = env.stream_copy_output_exists) := by
  obtain ⟨sc, se, ro, re⟩ := env
  cases sc <;> exact ⟨fun h => by first | rfl | exact RunOutcome.noConfusion h,
    fun h => by first | rfl | exact RunOutcome.noConfusion h,
    fun h => by first | rfl | exact RunOutcome.noConfusion h⟩

/-- Witness for C6 amended: concrete environments exercising all three
stream-copy outcomes. -/
theorem concatenate_segments_characterization_witness :
    concatenateSegments ⟨RunOutcome.exitNonzero, false, RunOutcome.ok, true⟩ =
      reencodeConcat ⟨RunOutcome.exitNonzero, false, RunOutcome.ok, true⟩ ∧
    concatenateSegments ⟨RunOutcome.timeoutExpired, false, RunOutcome.ok, true⟩ = false ∧
    concatenateSegments ⟨RunOutcome.ok, true, RunOutcome.ok, true⟩ = true :=
  ⟨(concatenate_segments_characterization _).1 rfl,
   (concatenate_segments_characterization _).2.1 rfl,
   (concatenate_segments_characterization _).2.2 rfl⟩

/-! Embedding of `SmartAligner` (`app/services/aligner.py`). String scoring
uses Python-faithful helpers: `pyLower` models `str.lower` on the ASCII and
Cyrillic letters that occur in the pattern tables; `containsSub` models
`re.search` and `countOccurrences` models `len(re.findall(...))` for the
literal patterns in the tables; `wordCount` models `len(text.split())`.
`difflib.SequenceMatcher.ratio` is standard-library code external to the
repository and is abstracted as a parameter `sim`. -/

/-- Python `str.lower` restricted to ASCII and Cyrillic letters. -/
def pyLowerChar (c : Char) : Char :=
  if 65 ≤ c.toNat ∧ c.toNat ≤ 90 then Char.ofNat (c.toNat + 32)
  else if 1040 ≤ c.toNat ∧ c.toNat ≤ 1071 then Char.ofNat (c.toNat + 32)
  else if c.toNat = 1025 then Char.ofNat 1105
  else c

/-- Lowercase an entire string. -/
def pyLower (s : String) : String := String.mk (s.data.map pyLowerChar)

/-- Does the pattern occur as a contiguous substring of the text? -/
def containsSubAux (pattern : List Char) : List Char → Bool
  | [] => pattern.isEmpty
  | c :: rest => pattern.isPrefixOf (c :: rest) || containsSubAux pattern rest

/-- `re.search(pattern, text) is not None` for a literal pattern. -/
def containsSub (pattern text : String) : Bool :=
  containsSubAux pattern.data text.data

/-- Count non-overlapping occurrences, skipping over a match once found. -/
def countOccurrencesAux (pattern : List Char) : List Char → ℕ → ℕ
  | [], _ => 0
  | c :: rest, skip =>
    if 0 < skip then countOccurrencesAux pattern rest (skip - 1)
    else if pattern.isPrefixOf (c :: rest) then
      1 + countOccurrencesAux pattern rest (pattern.length - 1)
    else countOccurrencesAux pattern rest 0

/-- `len(re.findall(pattern, text))` for a literal non-empty pattern:
non-overlapping occurrences scanned left to right. -/
def countOccurrences (pattern text : String) : ℕ :=
  if pattern.isEmpty then 0 else countOccurrencesAux pattern.data text.data 0

/-- Count words, i.e. maximal runs of non-whitespace characters. -/
def wordCountAux (inWord : Bool) : List Char → ℕ
  | [] => 0
  | c :: rest =>
    if c.isWhitespace then wordCountAux false rest
    else (if inWord then 0 else 1) + wordCountAux true rest

/-- `len(text.split())`. -/
def wordCount (s : String) : ℕ := wordCountAux false s.data

/-- Enum `ActionType` from `aligner.py`. -/
inductive ActionType where
  | click
  | double_click
  | right_click
  | scroll
  | type
  | drag
  | hover
  | key_press
  deriving DecidableEq

/-- Dataclass `ScreenAction` from `aligner.py`. -/
structure ScreenAction where
  action_type : ActionType
  timestamp : ℚ
  x : ℤ
  y : ℤ
  element_description : Option String
  element_tag : Option String
  element_text : Option String
  scroll_direction : Option String
  scroll_amount : Option ℤ
  key_code : Option ℤ
  typed_text : Option String
  deriving DecidableEq

/-- Dataclass `VoiceSegment` from `aligner.py` (the `words` list, which the
alignment logic never inspects, is omitted; Python `end` is `endTime`). -/
structure VoiceSegment where
  start : ℚ
  endTime : ℚ
  text : String
  confidence : ℚ
  deriving DecidableEq

/-- Dataclass `AlignedStep` from `aligner.py`. -/
structure AlignedStep where
  step_number : ℕ
  original_start : ℚ
  original_end : ℚ
  aligned_start : ℚ
  aligned_end : ℚ
  text : String
  action : ScreenAction
  silence_removed : ℚ
  confidence : ℚ
  deriving DecidableEq

/-- Property `AlignedStep.duration`. -/
def AlignedStep.duration (s : AlignedStep) : ℚ := s.aligned_end - s.aligned_start

/-- Property `AlignedStep.original_duration`. -/
def AlignedStep.originalDuration (s : AlignedStep) : ℚ :=
  s.original_end - s.original_start

/-- Dataclass `AlignmentResult` from `aligner.py`. -/
structure AlignmentResult where
  steps : List AlignedStep
  total_original_duration : ℚ
  total_aligned_duration : ℚ
  total_silence_removed : ℚ
  compression_ratio : ℚ
  alignment_quality : ℚ
  deriving DecidableEq

/-- Constructor arguments of `SmartAligner`
(defaults 5.0, 0.3, 0.5, 0.7 in the source). -/
structure AlignerConfig where
  max_gap_threshold : ℚ
  min_speech_gap : ℚ
  pause_word_threshold : ℚ
  confidence_threshold : ℚ
  deriving DecidableEq

/-- The default `SmartAligner()` configuration. -/
def defaultAligner : AlignerConfig := ⟨5, 3/10, 1/2, 7/10⟩

/-- Table `SmartAligner.PAUSE_PATTERNS` (all literal). -/
def PAUSE_PATTERNS : List String :=
  ["эээ", "ммм", "ну", "вот", "значит", "понимаешь", "как бы", "в общем",
   "допустим"]

/-- Per-segment body of `SmartAligner._clean_pauses` (the `language`
argument of `_clean_pauses` is unused by the source). -/
def cleanPauseSegment (cfg : AlignerConfig) (segment : VoiceSegment) :
    VoiceSegment :=
  let text := pyLower segment.text
  let pause_count := (PAUSE_PATTERNS.map (fun p => countOccurrences p text)).sum
  let pause_ratio : ℚ :=
    if wordCount text ≠ 0 then (pause_count : ℚ) / (wordCount text : ℚ) else 0
  if cfg.pause_word_threshold < pause_ratio then
    { start := segment.start,
      endTime := segment.start + (segment.endTime - segment.start) * (4/5),
      text := segment.text,
      confidence := segment.confidence * (4/5) }
  else segment

/-- `SmartAligner._clean_pauses`. -/
def cleanPauses (cfg : AlignerConfig) (segments : List VoiceSegment) :
    List VoiceSegment :=
  segments.map (cleanPauseSegment cfg)

/-- Table `SmartAligner.ACTION_PATTERNS` (a dict keyed by four action
types; all patterns are literal words). -/
def actionPatterns : ActionType → Option (List String)
  | .click => some ["нажми", "кликни", "щелкни", "ткни", "нажать", "кликнуть",
      "выбери", "выбрать", "открой", "открыть", "нажмите", "кликните",
      "click", "press", "tap"]
  | .scroll => some ["пролистай", "прокрути", "скролл", "опусти", "подними",
      "листай", "двинь", "scroll", "swipe"]
  | .type => some ["введи", "напечатай", "напиши", "ввести", "напечатать",
      "ввод", "type", "enter", "input"]
  | .hover => some ["наведи", "наведи курсор", "подведи", "наведите",
      "hover", "move"]
  | _ => none

/-- The `typical_phrases` dict inside `_analyze_action_context`. -/
def typicalPhrases : ActionType → Option (List String)
  | .click => some ["нажми на кнопку", "нажми здесь", "кликни по ссылке"]
  | .scroll => some ["прокрути вниз", "пролистай страницу"]
  | .type => some ["введи текст", "напиши сообщение"]
  | _ => none

/-- `SmartAligner._analyze_action_context`; `sim a b` stands for
`SequenceMatcher(None, a, b).ratio()`. -/
def analyzeActionContext (sim : String → String → ℚ) (text : String)
    (action_type : ActionType) : ℚ :=
  let text_lower := pyLower text
  match actionPatterns action_type with
  | none => 1/2
  | some patterns =>
    if patterns.any (fun p => containsSub p text_lower) then 1
    else
      match typicalPhrases action_type with
      | some phrases =>
          phrases.foldl (fun max_sim phrase => max max_sim (sim text_lower phrase)) 0
      | none => 3/10

/-- Temporal gap between a voice segment and an action (inner loop of
`_match_actions_to_speech`). -/
def gapOf (action : ScreenAction) (voice : VoiceSegment) : ℚ :=
  if voice.endTime ≤ action.timestamp then action.timestamp - voice.endTime
  else |voice.start - action.timestamp|

/-- `SmartAligner._calculate_silence_removal`. -/
def calculateSilenceRemoval (voice : VoiceSegment) (action : ScreenAction)
    (gap : ℚ) : ℚ :=
  if voice.endTime ≤ action.timestamp then max 0 (gap - 1/5) else 0

/-- One inner-loop iteration over `enumerate(voice_segments)` of
`_match_actions_to_speech`. The accumulator carries `(best_match, best_gap)`
(`none` for `best_match = None`, when `best_gap = inf` is never read) and
`best_score`. -/
def considerVoice (cfg : AlignerConfig) (sim : String → String → ℚ)
    (action : ScreenAction) (used_voices : List ℕ)
    (acc : Option (VoiceSegment × ℚ) × ℚ) (iv : ℕ × VoiceSegment) :
    Option (VoiceSegment × ℚ) × ℚ :=
  if iv.1 ∈ used_voices then acc
  else
    let gap := gapOf action iv.2
    if cfg.max_gap_threshold < gap then acc
    else
      let context_score := analyzeActionContext sim iv.2.text action.action_type
      let gap_penalty := max 0 (gap / cfg.max_gap_threshold)
      let combined_score := context_score * (1 - gap_penalty * (3/10))
      if acc.2 < combined_score then (some (iv.2, gap), combined_score) else acc

/-- Mutable state of the outer loop of `_match_actions_to_speech`. -/
structure MatchState where
  matched : List (VoiceSegment × ScreenAction × ℚ)
  used_voices : List ℕ
  used_actions : List ℚ
  deriving DecidableEq

/-- Outer-loop body of `_match_actions_to_speech` for one action. -/
def matchOneAction (cfg : AlignerConfig) (sim : String → String → ℚ)
    (voice_segments : List VoiceSegment) (st : MatchState)
    (action : ScreenAction) : MatchState :=
  if action.timestamp ∈ st.used_actions then st
  else
    let best := voice_segments.enum.foldl
      (considerVoice cfg sim action st.used_voices) (none, 0)
    match best.1 with
    | none => st
    | some (best_match, best_gap) =>
        let match_idx := voice_segments.findIdx (fun v => v == best_match)
        let silence_removed := calculateSilenceRemoval best_match action best_gap
        let aligned_voice : VoiceSegment :=
          { start := best_match.start, endTime := best_match.endTime,
            text := best_match.text, confidence := best.2 }
        { matched := st.matched ++ [(aligned_voice, action, silence_removed)],
          used_voices := match_idx :: st.used_voices,
          used_actions := action.timestamp :: st.used_actions }

/-- `SmartAligner._match_actions_to_speech`. -/
def matchActionsToSpeech (cfg : AlignerConfig) (sim : String → String → ℚ)
    (voice_segments : List VoiceSegment) (screen_actions : List ScreenAction) :
    List (VoiceSegment × ScreenAction × ℚ) :=
  (screen_actions.foldl (matchOneAction cfg sim voice_segments)
    ⟨[], [], []⟩).matched

/-- `SmartAligner._create_aligned_steps` (its `all_voices` parameter feeds
only a dead loop and is dropped); `i` carries `enumerate`'s index plus 1. -/
def createAlignedStepsAux :
    ℕ → List (VoiceSegment × ScreenAction × ℚ) → List AlignedStep
  | _, [] => []
  | i, (voice, action, silence_removed) :: rest =>
      let new_start := voice.start
      let new_end0 := voice.endTime - silence_removed
      let new_end := if new_end0 ≤ new_start then new_start + 1/2 else new_end0
      { step_number := i, original_start := voice.start,
        original_end := voice.endTime, aligned_start := new_start,
        aligned_end := new_end, text := voice.text, action := action,
        silence_removed := silence_removed, confidence := voice.confidence } ::
        createAlignedStepsAux (i + 1) rest

/-- `_create_aligned_steps` starting at step number 1. -/
def createAlignedSteps (pairs : List (VoiceSegment × ScreenAction × ℚ)) :
    List AlignedStep :=
  createAlignedStepsAux 1 pairs

/-- `SmartAligner._calculate_quality`. -/
def calculateQuality (aligned_steps : List AlignedStep)
    (original_voices : List VoiceSegment) : ℚ :=
  if aligned_steps = [] ∨ original_voices = [] then 0
  else
    let matched_count := aligned_steps.length
    let total_count := original_voices.length
    let coverage_score := min 1 ((matched_count : ℚ) / max 1 (total_count : ℚ))
    let avg_confidence :=
      (aligned_steps.map AlignedStep.confidence).sum / max 1 (matched_count : ℚ)
    let total_removed := (aligned_steps.map AlignedStep.silence_removed).sum
    let total_duration := (aligned_steps.map AlignedStep.originalDuration).sum
    let removal_ratio := total_removed / max (1/10) total_duration
    let removal_score :=
      if removal_ratio < 1/10 then removal_ratio / (1/10)
      else if 3/10 < removal_ratio then max 0 (1 - (removal_ratio - 3/10) / (7/10))
      else 1
    min 1 (coverage_score * (3/10) + avg_confidence * (4/10) +
      removal_score * (3/10))

/-- `SmartAligner._empty_result`. -/
def emptyResult : AlignmentResult := ⟨[], 0, 0, 0, 1, 0⟩

/-- `SmartAligner.align` (the `language` argument is unused downstream). -/
def align (cfg : AlignerConfig) (sim : String → String → ℚ)
    (voice_segments : List VoiceSegment) (screen_actions : List ScreenAction) :
    AlignmentResult :=
  if voice_segments = [] ∨ screen_actions = [] then emptyResult
  else
    let cleaned_segments := cleanPauses cfg voice_segments
    let matched_pairs := matchActionsToSpeech cfg sim cleaned_segments screen_actions
    let aligned_steps := createAlignedSteps matched_pairs
    let total_original := (aligned_steps.map AlignedStep.originalDuration).sum
    let total_aligned := (aligned_steps.map AlignedStep.duration).sum
    let total_silence := total_original - total_aligned
    let compression := if 0 < total_aligned then total_original / total_aligned else 1
    let quality := calculateQuality aligned_steps voice_segments
    { steps := aligned_steps,
      total_original_duration := total_original,
      total_aligned_duration := total_aligned,
      total_silence_removed := max 0 total_silence,
      compression_ratio := compression,
      alignment_quality := quality }

/-! Concrete evaluation helpers for the aligner claims. -/

/-- Constant similarity function for concrete runs where keyword matching
already decides the context score. -/
def simZero : String → String → ℚ := fun _ _ => 0

/-- Concrete click action at t = 2.1 used by the aligner evaluations. -/
def actionA : ScreenAction :=
  ⟨ActionType.click, 21/10, 0, 0, none, none, none, none, none, none, none⟩

theorem align_eval_A :
    align defaultAligner simZero [⟨1, 2, "нажми", 9/10⟩] [actionA] =
      ⟨[⟨1, 1, 2, 1, 2, "нажми", actionA, 0, 497/500⟩], 1, 1, 0, 1, 436/625⟩ := by
  have hlow : pyLower "нажми" = "нажми" := by decide
  have hcnt : (PAUSE_PATTERNS.map
      (fun p => countOccurrences p "нажми")).sum = 0 := by decide
  have hwc : wordCount "нажми" = 1 := by decide
  have hkw : (["нажми", "кликни", "щелкни", "ткни", "нажать", "кликнуть",
      "выбери", "выбрать", "открой", "открыть", "нажмите", "кликните",
      "click", "press", "tap"].any (fun p => containsSub p "нажми")) = true := by
    decide
  norm_num [align, cleanPauses, cleanPauseSegment, hlow, hcnt, hwc,
    matchActionsToSpeech, matchOneAction, considerVoice, gapOf,
    analyzeActionContext, actionPatterns, typicalPhrases, hkw,
    calculateSilenceRemoval, createAlignedSteps, createAlignedStepsAux,
    calculateQuality, defaultAligner, actionA, List.enum, List.enumFrom,
    List.findIdx, List.findIdx.go, AlignedStep.duration,
    AlignedStep.originalDuration, max_def, min_def, emptyResult]

/-! Structural lemmas about the matcher and step assembly. -/

theorem calcSilence_nonneg (voice : VoiceSegment) (action : ScreenAction)
    (gap : ℚ) : 0 ≤ calculateSilenceRemoval voice action gap := by
  unfold calculateSilenceRemoval
  split
  · exact le_max_left 0 _
  · exact le_refl 0

theorem matchOneAction_mem (cfg : AlignerConfig) (sim : String → String → ℚ)
    (voices : List VoiceSegment) (st : MatchState) (action : ScreenAction) :
    ∀ t ∈ (matchOneAction cfg sim voices st action).matched,
      t ∈ st.matched ∨ ∃ v g, t.2.2 = calculateSilenceRemoval v action g := by
  intro t ht
  by_cases hu : action.timestamp ∈ st.used_actions
  · rw [matchOneAction, if_pos hu] at ht
    exact Or.inl ht
  · simp only [matchOneAction, if_neg hu] at ht
    rcases hfold : voices.enum.foldl (considerVoice cfg sim action st.used_voices)
        (none, 0) with ⟨obest, score⟩
    rw [hfold] at ht
    cases obest with
    | none => exact Or.inl ht
    | some p =>
        obtain ⟨best_match, best_gap⟩ := p
        simp only [List.mem_append, List.mem_singleton] at ht
        rcases ht with hin | heq
        · exact Or.inl hin
        · right
          refine ⟨best_match, best_gap, ?_⟩
          rw [heq]

theorem matched_silence_nonneg (cfg : AlignerConfig) (sim : String → String → ℚ)
    (voices : List VoiceSegment) :
    ∀ (actions : List ScreenAction) (st : MatchState),
      (∀ t ∈ st.matched, 0 ≤ t.2.2) →
      ∀ t ∈ (actions.foldl (matchOneAction cfg sim voices) st).matched,
        0 ≤ t.2.2 := by
  intro actions
  induction actions with
  | nil =>
      intro st h t ht
      rw [List.foldl_nil] at ht
      exact h t ht
  | cons a rest ih =>
      intro st h t ht
      rw [List.foldl_cons] at ht
      refine ih (matchOneAction cfg sim voices st a) ?_ t ht
      intro t2 ht2
      rcases matchOneAction_mem cfg sim voices st a t2 ht2 with hin | ⟨v, g, heq⟩
      · exact h t2 hin
      · rw [heq]
        exact calcSilence_nonneg v a g

theorem matchActionsToSpeech_silence_nonneg (cfg : AlignerConfig)
    (sim : String → String → ℚ) (voices : List VoiceSegment)
    (actions : List ScreenAction) :
    ∀ t ∈ matchActionsToSpeech cfg sim voices actions, 0 ≤ t.2.2 := by
  intro t ht
  exact matched_silence_nonneg cfg sim voices actions ⟨[], [], []⟩
    (fun t2 ht2 => absurd ht2 (List.not_mem_nil t2)) t ht

theorem createAux_char :
    ∀ (pairs : List (VoiceSegment × ScreenAction × ℚ)) (i : ℕ)
      (step : AlignedStep), step ∈ createAlignedStepsAux i pairs →
      ∃ v a, (v, a, step.silence_removed) ∈ pairs ∧
        step.original_start = v.start ∧
        step.original_end = v.endTime ∧
        step.aligned_start = v.start ∧
        step.aligned_end = (if v.endTime - step.silence_removed ≤ v.start
          then v.start + 1/2 else v.endTime - step.silence_removed) := by
  intro pairs
  induction pairs with
  | nil =>
      intro i step h
      exact absurd h (List.not_mem_nil step)
  | cons p rest ih =>
      obtain ⟨voice, action, silence⟩ := p
      intro i step h
      rw [createAlignedStepsAux] at h
      rcases List.mem_cons.mp h with heq | hmem
      · refine ⟨voice, action, ?_, ?_, ?_, ?_, ?_⟩ <;> rw [heq] <;> simp
      · obtain ⟨v, a, hmem2, h1, h2, h3, h4⟩ := ih (i + 1) step hmem
        exact ⟨v, a, List.mem_cons_of_mem _ hmem2, h1, h2, h3, h4⟩

theorem align_unfold (cfg : AlignerConfig) (sim : String → String → ℚ)
    (voices : List VoiceSegment) (actions : List ScreenAction)
    (h : ¬ (voices = [] ∨ actions = [])) :
    align cfg sim voices actions =
      { steps := createAlignedSteps
          (matchActionsToSpeech cfg sim (cleanPauses cfg voices) actions),
        total_original_duration := ((createAlignedSteps
          (matchActionsToSpeech cfg sim (cleanPauses cfg voices) actions)).map
            AlignedStep.originalDuration).sum,
        total_aligned_duration := ((createAlignedSteps
          (matchActionsToSpeech cfg sim (cleanPauses cfg voices) actions)).map
            AlignedStep.duration).sum,
        total_silence_removed := max 0
          (((createAlignedSteps
            (matchActionsToSpeech cfg sim (cleanPauses cfg voices) actions)).map
              AlignedStep.originalDuration).sum -
           ((createAlignedSteps
            (matchActionsToSpeech cfg sim (cleanPauses cfg voices) actions)).map
              AlignedStep.duration).sum),
        compression_ratio :=
          if 0 < ((createAlignedSteps
            (matchActionsToSpeech cfg sim (cleanPauses cfg voices) actions)).map
              AlignedStep.duration).sum
          then ((createAlignedSteps
            (matchActionsToSpeech cfg sim (cleanPauses cfg voices) actions)).map
              AlignedStep.originalDuration).sum /
            ((createAlignedSteps
              (matchActionsToSpeech cfg sim (cleanPauses cfg voices) actions)).map
                AlignedStep.duration).sum
          else 1,
        alignment_quality := calculateQuality
          (createAlignedSteps
            (matchActionsToSpeech cfg sim (cleanPauses cfg voices) actions))
          voices } := by
  unfold align
  rw [if_neg h]

theorem sum_zero_of_nonneg :
    ∀ (l : List ℚ), l.sum = 0 → (∀ x ∈ l, 0 ≤ x) → ∀ x ∈ l, x = 0 := by
  intro l
  induction l with
  | nil =>
      intro _ _ x hx
      exact absurd hx (List.not_mem_nil x)
  | cons a rest ih =>
      intro hsum hn x hx
      rw [List.sum_cons] at hsum
      have ha : 0 ≤ a := hn a (List.mem_cons_self a rest)
      have hr : 0 ≤ rest.sum :=
        List.sum_nonneg (fun y hy => hn y (List.mem_cons_of_mem a hy))
      have ha0 : a = 0 := by linarith
      have hrest : rest.sum = 0 := by linarith
      rcases List.mem_cons.mp hx with heq | hmem
      · rw [heq, ha0]
      · exact ih hrest (fun y hy => hn y (List.mem_cons_of_mem a hy)) x hmem

theorem createAligned_silence_nonneg (cfg : AlignerConfig)
    (sim : String → String → ℚ) (voices : List VoiceSegment)
    (actions : List ScreenAction) :
    ∀ step ∈ createAlignedSteps
      (matchActionsToSpeech cfg sim (cleanPauses cfg voices) actions),
      0 ≤ step.silence_removed := by
  intro step hstep
  obtain ⟨v, a, hmem, _⟩ := createAux_char _ 1 step hstep
  exact matchActionsToSpeech_silence_nonneg cfg sim (cleanPauses cfg voices)
    actions _ hmem

/-- C8: every AlignedStep produced by align has aligned_end > aligned_start
and silence_removed ≥ 0, and aligned_end is clamped to aligned_start + 0.5
exactly when the matched voice span minus the removed silence would not
extend past aligned_start (the voice span is recorded as
original_start/original_end). -/
theorem align_step_invariants (cfg : AlignerConfig) (sim : String → String → ℚ)
    (voices : List VoiceSegment) (actions : List ScreenAction) :
    ∀ step ∈ (align cfg sim voices actions).steps,
      step.aligned_start < step.aligned_end ∧ 0 ≤ step.silence_removed ∧
      (step.original_end - step.silence_removed ≤ step.aligned_start →
        step.aligned_end = step.aligned_start + 1/2) := by
  intro step hstep
  by_cases hempty : voices = [] ∨ actions = []
  · unfold align at hstep
    rw [if_pos hempty] at hstep
    exact absurd hstep (List.not_mem_nil step)
  · rw [align_unfold cfg sim voices actions hempty] at hstep
    have hsil : 0 ≤ step.silence_removed :=
      createAligned_silence_nonneg cfg sim voices actions step hstep
    obtain ⟨v, a, hmem, h1, h2, h3, h4⟩ := createAux_char _ 1 step hstep
    refine ⟨?_, hsil, ?_⟩
    · rw [h3, h4]
      split_ifs with hc
      · linarith
      · push_neg at hc
        linarith
    · intro hclamp
      rw [h2, h3] at hclamp
      rw [h4, h3, if_pos hclamp]

/-- Witness for C8: the step produced by the concrete aligned run has
aligned_start 1 < aligned_end 2 and silence_removed 0 ≥ 0. -/
theorem align_step_invariants_witness :
    (⟨1, 1, 2, 1, 2, "нажми", actionA, 0, 497/500⟩ : AlignedStep).aligned_start <
      (⟨1, 1, 2, 1, 2, "нажми", actionA, 0, 497/500⟩ : AlignedStep).aligned_end ∧
    (0 : ℚ) ≤
      (⟨1, 1, 2, 1, 2, "нажми", actionA, 0, 497/500⟩ : AlignedStep).silence_removed := by
  have h := align_step_invariants defaultAligner simZero
    [⟨1, 2, "нажми", 9/10⟩] [actionA]
    ⟨1, 1, 2, 1, 2, "нажми", actionA, 0, 497/500⟩
    (by rw [align_eval_A]; exact List.mem_cons_self _ _)
  exact ⟨h.1, h.2.1⟩

/-- Concrete click action at t = 1.0 used for the degenerate aligner run. -/
def actionB : ScreenAction :=
  ⟨ActionType.click, 1, 0, 0, none, none, none, none, none, none, none⟩

theorem align_eval_B :
    align defaultAligner simZero [⟨1, 1, "нажми", 9/10⟩] [actionB] =
      ⟨[⟨1, 1, 1, 1, 3/2, "нажми", actionB, 0, 1⟩], 0, 1/2, 0, 0, 7/10⟩ := by
  have hlow : pyLower "нажми" = "нажми" := by decide
  have hcnt : (PAUSE_PATTERNS.map
      (fun p => countOccurrences p "нажми")).sum = 0 := by decide
  have hwc : wordCount "нажми" = 1 := by decide
  have hkw : (["нажми", "кликни", "щелкни", "ткни", "нажать", "кликнуть",
      "выбери", "выбрать", "открой", "открыть", "нажмите", "кликните",
      "click", "press", "tap"].any (fun p => containsSub p "нажми")) = true := by
    decide
  norm_num [align, cleanPauses, cleanPauseSegment, hlow, hcnt, hwc,
    matchActionsToSpeech, matchOneAction, considerVoice, gapOf,
    analyzeActionContext, actionPatterns, typicalPhrases, hkw,
    calculateSilenceRemoval, createAlignedSteps, createAlignedStepsAux,
    calculateQuality, defaultAligner, actionB, List.enum, List.enumFrom,
    List.findIdx, List.findIdx.go, AlignedStep.duration,
    AlignedStep.originalDuration, max_def, min_def, emptyResult]

/-- C4 (counterexample): in the run where the single matched voice segment
is zero-length (start = end = 1) and the click happens at the same instant,
every silence_removed is 0 — yet the minimum-duration clamp stretches the
step to 0.5s, total_original_duration is 0, and compression_ratio is 0, not
1.0. -/
theorem compression_ratio_counterexample :
    ((align defaultAligner simZero [⟨1, 1, "нажми", 9/10⟩] [actionB]).steps.map
        AlignedStep.silence_removed).sum = 0 ∧
    (align defaultAligner simZero [⟨1, 1, "нажми", 9/10⟩]
        [actionB]).compression_ratio ≠ 1 := by
  rw [align_eval_B]
  norm_num

/-- C4 (amended): whenever the produced steps' silence_removed values sum to
0 and no produced step has a degenerate original span (original_start <
original_end for each, so the 0.5s minimum-duration clamp cannot fire),
compression_ratio = 1.0. -/
theorem compression_ratio_one_of_no_silence (cfg : AlignerConfig)
    (sim : String → String → ℚ) (voices : List VoiceSegment)
    (actions : List ScreenAction)
    (hsum : ((align cfg sim voices actions).steps.map
      AlignedStep.silence_removed).sum = 0)
    (hpos : ∀ step ∈ (align cfg sim voices actions).steps,
      step.original_start < step.original_end) :
    (align cfg sim voices actions).compression_ratio = 1 := by
  by_cases hempty : voices = [] ∨ actions = []
  · unfold align
    rw [if_pos hempty]
    rfl
  · rw [align_unfold cfg sim voices actions hempty] at hsum hpos ⊢
    have hnn : ∀ x ∈ ((createAlignedSteps (matchActionsToSpeech cfg sim
        (cleanPauses cfg voices) actions)).map AlignedStep.silence_removed),
        0 ≤ x := by
      intro x hx
      obtain ⟨st2, hst2, rfl⟩ := List.mem_map.mp hx
      exact createAligned_silence_nonneg cfg sim voices actions st2 hst2
    have hall0 : ∀ step ∈ createAlignedSteps (matchActionsToSpeech cfg sim
        (cleanPauses cfg voices) actions), step.silence_removed = 0 :=
      fun step hstep => sum_zero_of_nonneg _ hsum hnn _
        (List.mem_map_of_mem _ hstep)
    have hmapeq : (createAlignedSteps (matchActionsToSpeech cfg sim
          (cleanPauses cfg voices) actions)).map AlignedStep.duration =
        (createAlignedSteps (matchActionsToSpeech cfg sim
          (cleanPauses cfg voices) actions)).map AlignedStep.originalDuration := by
      apply List.map_congr_left
      intro step hstep
      obtain ⟨v, a, hmem, h1, h2, h3, h4⟩ := createAux_char _ 1 step hstep
      have hs0 := hall0 step hstep
      have horig := hpos step hstep
      rw [h1, h2] at horig
      rw [hs0] at h4
      unfold AlignedStep.duration AlignedStep.originalDuration
      rw [h4, h3, h1, h2, if_neg (by linarith)]
      ring
    show (if 0 < ((createAlignedSteps (matchActionsToSpeech cfg sim
        (cleanPauses cfg voices) actions)).map AlignedStep.duration).sum
      then ((createAlignedSteps (matchActionsToSpeech cfg sim
        (cleanPauses cfg voices) actions)).map AlignedStep.originalDuration).sum /
        ((createAlignedSteps (matchActionsToSpeech cfg sim
          (cleanPauses cfg voices) actions)).map AlignedStep.duration).sum
      else 1) = 1
    rw [hmapeq]
    split_ifs with h1
    · exact div_self (ne_of_gt h1)
    · rfl

/-- Witness for C4 amended: the concrete run with a genuine 1s voice span
and no removable silence yields compression_ratio exactly 1. -/
theorem compression_ratio_one_of_no_silence_witness :
    (align defaultAligner simZero [⟨1, 2, "нажми", 9/10⟩]
      [actionA]).compression_ratio = 1 := by
  apply compression_ratio_one_of_no_silence
  · rw [align_eval_A]
    norm_num
  · intro step hstep
    rw [align_eval_A] at hstep
    rcases List.mem_cons.mp hstep with heq | hmem
    · rw [heq]
      norm_num
    · exact absurd hmem (List.not_mem_nil step)

/-- C10: with an empty voice-segment list or an empty screen-action list,
align returns the empty result: no steps, all three duration totals 0,
compression_ratio 1.0 and alignment_quality 0.0. -/
theorem align_empty_inputs (cfg : AlignerConfig) (sim : String → String → ℚ)
    (voices : List VoiceSegment) (actions : List ScreenAction)
    (h : voices = [] ∨ actions = []) :
    align cfg sim voices actions = emptyResult ∧
    emptyResult.steps = [] ∧ emptyResult.total_original_duration = 0 ∧
    emptyResult.total_aligned_duration = 0 ∧
    emptyResult.total_silence_removed = 0 ∧
    emptyResult.compression_ratio = 1 ∧ emptyResult.alignment_quality = 0 := by
  refine ⟨?_, rfl, rfl, rfl, rfl, rfl, rfl⟩
  unfold align
  rw [if_pos h]

/-- Witness for C10: the empty voice list yields the empty result. -/
theorem align_empty_inputs_witness :
    align defaultAligner simZero [] [actionA] = emptyResult :=
  (align_empty_inputs defaultAligner simZero [] [actionA] (Or.inl rfl)).1

/-- C5 (counterexample): the Drag action type has neither a keyword-pattern
set nor a canonical-phrase set, so the claim prescribes score 0.3 — but the
code returns 0.5 (its early return for types absent from ACTION_PATTERNS). -/
theorem context_score_drag_counterexample :
    analyzeActionContext simZero "перетащи" ActionType.drag = 1/2 ∧
    actionPatterns ActionType.drag = none ∧
    typicalPhrases ActionType.drag = none ∧
    ((1 : ℚ)/2) ≠ 3/10 :=
  ⟨rfl, rfl, rfl, by norm_num⟩

/-- C5 (amended): the context score is 0.5 for action types with no
keyword-pattern set (DoubleClick, RightClick, Drag, KeyPress); otherwise it
is 1.0 when the lowered text contains a keyword of the type, else the
maximum similarity ratio over the type's canonical phrases, or 0.3 when the
type has no canonical-phrase set (Hover). -/
theorem analyze_action_context_characterization (sim : String → String → ℚ)
    (text : String) (a : ActionType) :
    (actionPatterns a = none → analyzeActionContext sim text a = 1/2) ∧
    (∀ pats, actionPatterns a = some pats →
      ((pats.any fun p => containsSub p (pyLower text)) = true →
        analyzeActionContext sim text a = 1) ∧
      ((pats.any fun p => containsSub p (pyLower text)) = false →
        (∀ phs, typicalPhrases a = some phs →
          analyzeActionContext sim text a =
            phs.foldl (fun m ph => max m (sim (pyLower text) ph)) 0) ∧
        (typicalPhrases a = none →
          analyzeActionContext sim text a = 3/10))) := by
  constructor
  · intro h
    simp only [analyzeActionContext, h]
  · intro pats hp
    constructor
    · intro hany
      simp only [analyzeActionContext, hp, hany, if_true]
    · intro hany
      constructor
      · intro phs hphs
        simp only [analyzeActionContext, hp, hany, hphs, Bool.false_eq_true,
          if_false]
      · intro hphs
        simp only [analyzeActionContext, hp, hany, hphs, Bool.false_eq_true,
          if_false]

/-- Witness for C5 amended: all four branches at concrete inputs — Drag has
no keyword set (0.5); Click text with keyword (1.0); Hover text without
keyword and no phrase set (0.3); Scroll text without keyword gets the
maximal similarity (0 under the constant similarity). -/
theorem analyze_action_context_characterization_witness :
    analyzeActionContext simZero "перетащи" ActionType.drag = 1/2 ∧
    analyzeActionContext simZero "нажми кнопку" ActionType.click = 1 ∧
    analyzeActionContext simZero "переместись" ActionType.hover = 3/10 ∧
    analyzeActionContext simZero "абв" ActionType.scroll =
      (["прокрути вниз", "пролистай страницу"].foldl
        (fun m ph => max m (simZero (pyLower "абв") ph)) 0) := by
  refine ⟨?_, ?_, ?_, ?_⟩
  · exact (analyze_action_context_characterization simZero "перетащи"
      ActionType.drag).1 rfl
  · exact ((analyze_action_context_characterization simZero "нажми кнопку"
      ActionType.click).2 _ rfl).1 (by decide)
  · exact (((analyze_action_context_characterization simZero "переместись"
      ActionType.hover).2 _ rfl).2 (by decide)).2 rfl
  · exact (((analyze_action_context_characterization simZero "абв"
      ActionType.scroll).2 _ rfl).2 (by decide)).1 _ rfl
